import Mathlib

/- Verification development for `src/main.py` of ScavengerBackupProxmox,
a retention tool for Proxmox VE `vzdump` backup archives.  The Python
source is shallowly embedded: `pathlib.Path` values become records of a
directory and a file name, the filesystem becomes an explicit association
list from paths to byte sizes, exceptions become explicit result
constructors, and the regular-expression match in `parse_backup_filename`
becomes a deterministic scanner (justified below). -/

/-- Python `pathlib.Path`, reduced to the operations the script uses
(`.name`, `.parent / s`): the parent directory and the file name. -/
structure PyPath where
  dir : String
  name : String
  deriving DecidableEq, Repr

/-- Python's `\w` character class, over the ASCII repertoire the backup
names draw from: letters, digits and underscore. -/
def isWordChar (c : Char) : Bool := c.isAlphanum || c == '_'

/-- Consume a literal piece of the pattern; `none` when it does not match. -/
def stripLit : List Char → List Char → Option (List Char)
  | [], s => some s
  | _ :: _, [] => none
  | c :: cs, d :: ds => if c == d then stripLit cs ds else none

/-- Greedy `+`: the maximal run of characters satisfying `p`, and the rest. -/
def takeRun (p : Char → Bool) : List Char → List Char × List Char
  | [] => ([], [])
  | c :: cs =>
    if p c then
      let r := takeRun p cs
      (c :: r.1, r.2)
    else ([], c :: cs)

/-- Fixed-width `{n}`: exactly `n` characters, all satisfying `p`. -/
def takeFixed : Nat → (Char → Bool) → List Char → Option (List Char × List Char)
  | 0, _, s => some ([], s)
  | _ + 1, _, [] => none
  | n + 1, p, c :: cs =>
    if p c then (takeFixed n p cs).map (fun r => (c :: r.1, r.2)) else none

/-- The eight capture groups of the pattern
`vzdump-(\w+)-(\d+)-(\d{4})_(\d{2})_(\d{2})-(\d{2})_(\d{2})_(\d{2})`,
as the matched strings (`match.group(1)` … `match.group(8)`). -/
structure ReGroups where
  vm_type_s : List Char
  vm_id_s : List Char
  year_s : List Char
  month_s : List Char
  day_s : List Char
  hour_s : List Char
  minute_s : List Char
  second_s : List Char
  deriving DecidableEq, Repr

/-- `re.match` of the source pattern, anchored at the start of the name and
leaving trailing content unconstrained.  The scan is deterministic even
though `re` backtracks: each greedy `\w+`/`\d+` group is followed in the
pattern by a literal the group's class excludes (`-`), so a shortened
match of the group would put a group-class character where the literal
must sit; hence only the maximal run can ever succeed, and the fixed-width
digit groups leave no choice at all. -/
def reMatchPattern (s : List Char) : Option ReGroups := do
  let s ← stripLit "vzdump-".data s
  let (w, s) := takeRun isWordChar s
  if w.isEmpty then none else do
  let s ← stripLit "-".data s
  let (d, s) := takeRun Char.isDigit s
  if d.isEmpty then none else do
  let s ← stripLit "-".data s
  let (y, s) ← takeFixed 4 Char.isDigit s
  let s ← stripLit "_".data s
  let (mo, s) ← takeFixed 2 Char.isDigit s
  let s ← stripLit "_".data s
  let (da, s) ← takeFixed 2 Char.isDigit s
  let s ← stripLit "-".data s
  let (h, s) ← takeFixed 2 Char.isDigit s
  let s ← stripLit "_".data s
  let (mi, s) ← takeFixed 2 Char.isDigit s
  let s ← stripLit "_".data s
  let (sec, _) ← takeFixed 2 Char.isDigit s
  return ⟨w, d, y, mo, da, h, mi, sec⟩

/-- Python `int()` on a string of decimal digits. -/
def digitsToNat (l : List Char) : Nat :=
  l.foldl (fun a c => a * 10 + (c.toNat - '0'.toNat)) 0

/-- Python `datetime.datetime`, restricted to the six fields the script
uses.  Values are constructed unchecked here; `PyDatetime.valid` states
the constructor's argument check. -/
structure PyDatetime where
  year : Nat
  month : Nat
  day : Nat
  hour : Nat
  minute : Nat
  second : Nat
  deriving DecidableEq, Repr

/-- Gregorian leap year, as `datetime` uses it. -/
def isLeapYear (y : Nat) : Bool := y % 4 == 0 && (y % 100 != 0 || y % 400 == 0)

/-- Days in a month, as `datetime` uses it (month assumed in 1..12). -/
def daysInMonth (y m : Nat) : Nat :=
  if m == 2 then (if isLeapYear y then 29 else 28)
  else if m == 4 || m == 6 || m == 9 || m == 11 then 30
  else 31

/-- The argument check of `datetime.datetime(year, month, day, hour,
minute, second)`: outside these bounds the constructor raises
`ValueError` (`MINYEAR = 1`, `MAXYEAR = 9999`). -/
def PyDatetime.valid (t : PyDatetime) : Bool :=
  1 ≤ t.year && t.year ≤ 9999 &&
  1 ≤ t.month && t.month ≤ 12 &&
  1 ≤ t.day && t.day ≤ daysInMonth t.year t.month &&
  t.hour ≤ 23 && t.minute ≤ 59 && t.second ≤ 59

/-- The dict `{'vm_type': …, 'vm_id': …, 'timestamp': …}` returned by
`parse_backup_filename`. -/
structure BackupInfo where
  vm_type : String
  vm_id : Nat
  timestamp : PyDatetime
  deriving DecidableEq, Repr

/-- The three ways a call to `parse_backup_filename` can end in the
source: the regex does not match and `None` is returned; the regex
matches but `datetime(...)` raises `ValueError` (no handler exists in the
source, so the exception propagates to the caller); or a metadata dict is
returned. -/
inductive ParseResult where
  | noMatch
  | raisesValueError
  | ok (info : BackupInfo)
  deriving DecidableEq, Repr

/-- The capture groups converted exactly as lines 55–65 of the source do:
`int()` on every numeric group, the type group kept as a string. -/
def groupsToInfo (g : ReGroups) : BackupInfo :=
  { vm_type := String.mk g.vm_type_s
    vm_id := digitsToNat g.vm_id_s
    timestamp :=
      { year := digitsToNat g.year_s
        month := digitsToNat g.month_s
        day := digitsToNat g.day_s
        hour := digitsToNat g.hour_s
        minute := digitsToNat g.minute_s
        second := digitsToNat g.second_s } }

/-- `parse_backup_filename` (source lines 45–71). -/
def parse_backup_filename (filename : String) : ParseResult :=
  match reMatchPattern filename.data with
  | none => .noMatch
  | some g =>
    let info := groupsToInfo g
    if info.timestamp.valid then .ok info else .raisesValueError

/-- Python compares `datetime` values field by field, lexicographically. -/
def PyDatetime.key (t : PyDatetime) : List Nat :=
  [t.year, t.month, t.day, t.hour, t.minute, t.second]

/-- `a <= b` on `datetime` values. -/
def PyDatetime.pyLe (a b : PyDatetime) : Bool := decide (a.key ≤ b.key)

/-- The per-file dict `{'file': file, 'info': info}` built at source
lines 122–125. -/
structure Backup where
  file : PyPath
  info : BackupInfo
  deriving DecidableEq, Repr

/-- Comparison giving the descending order used at source line 135:
`a` may precede `b` iff `b`'s timestamp is at most `a`'s. -/
def backupGe (a b : Backup) : Bool :=
  PyDatetime.pyLe b.info.timestamp a.info.timestamp

/-- `backupGe` as a relation, for the sorting lemmas. -/
def backupGeR (a b : Backup) : Prop := backupGe a b = true

instance : DecidableRel backupGeR :=
  fun a b => inferInstanceAs (Decidable (backupGe a b = true))

instance : IsTotal Backup backupGeR := by
  constructor
  intro a b
  simp only [backupGeR, backupGe, PyDatetime.pyLe, decide_eq_true_eq]
  exact (le_total _ _).symm

instance : IsTrans Backup backupGeR := by
  constructor
  intro a b c hab hbc
  simp only [backupGeR, backupGe, PyDatetime.pyLe, decide_eq_true_eq] at *
  exact le_trans hbc hab

/-- `backups.sort(key=lambda b: b['info']['timestamp'], reverse=True)`
(source line 135).  Python's sort is stable, and `reverse=True` is
specified to preserve the original order of elements with equal keys, so
the call is exactly the stable descending sort of the list — the unique
list that is sorted under `backupGe`, is a permutation of the input, and
keeps equal-timestamp elements in input order.  `List.insertionSort`
under the total, transitive relation `backupGeR` computes that list. -/
def sortDescByTimestamp (l : List Backup) : List Backup :=
  l.insertionSort backupGeR

/-- Python's `l[k:]` slice: for `k ≥ 0` drop the first `k` elements, for
`k < 0` start at `max(0, len(l) + k)`. -/
def pySliceFrom (l : List α) (k : Int) : List α :=
  if 0 ≤ k then l.drop k.toNat else l.drop ((l.length : Int) + k).toNat

/-- The per-group body of the planning loop (source lines 134–138): sort
the group descending by timestamp and, when the group is larger than
`keep`, emit the slice `backups[keep:]`; otherwise emit nothing.
`keep` is an `Int` because `argparse` accepts negative `--keep`. -/
def select_old (backups : List Backup) (keep : Int) : List Backup :=
  let sorted := sortDescByTimestamp backups
  if (sorted.length : Int) > keep then pySliceFrom sorted keep else []

/-- The filesystem, as the script observes it: the existing entries with
their byte sizes (`exists`/`stat().st_size`), plus the set of entries on
which `unlink()` would raise (permission denied, vanished concurrently). -/
structure FS where
  entries : List (PyPath × Nat)
  unlinkFails : List PyPath
  deriving DecidableEq, Repr

/-- Size of an entry, `none` when it does not exist. -/
def FS.size? (fs : FS) (p : PyPath) : Option Nat :=
  (fs.entries.find? (fun e => e.1 == p)).map (·.2)

/-- `file.exists()`. -/
def FS.existsAt (fs : FS) (p : PyPath) : Bool := (fs.size? p).isSome

/-- `file.stat().st_size`, defaulting to 0 for a missing entry (the
script only calls it after `exists()`). -/
def FS.sizeD (fs : FS) (p : PyPath) : Nat := (fs.size? p).getD 0

/-- `file.unlink()`, the successful case: the entry is removed. -/
def FS.remove (fs : FS) (p : PyPath) : FS :=
  ⟨fs.entries.filter (fun e => !(e.1 == p)), fs.unlinkFails⟩

/-- The suffix the script strips, `'.vma.zst'`. -/
def vmaSuffix : List Char := ".vma.zst".data

/-- Python `name.replace('.vma.zst', '')`: remove every occurrence of
`'.vma.zst'`, scanning left to right, non-overlapping.  `str.replace` is
specialized to the one constant pattern the source uses so that the
recursion is structural. -/
def removeVmaZst : List Char → List Char
  | '.' :: 'v' :: 'm' :: 'a' :: '.' :: 'z' :: 's' :: 't' :: rest => removeVmaZst rest
  | c :: cs => c :: removeVmaZst cs
  | [] => []

/-- Whether `'.vma.zst'` occurs anywhere in the string. -/
def occursVma : List Char → Bool
  | '.' :: 'v' :: 'm' :: 'a' :: '.' :: 'z' :: 's' :: 't' :: _ => true
  | _ :: cs => occursVma cs
  | [] => false

/-- `base_name = backup_file.name.replace('.vma.zst', '')`
(source line 21). -/
def base_name (backup_file : PyPath) : String :=
  String.mk (removeVmaZst backup_file.name.data)

/-- The `related_files` list of source lines 23–27: the archive itself,
`<base_name>.log`, and `<full name>.notes`, all in the archive's own
directory. -/
def related_files (backup_file : PyPath) : List PyPath :=
  [ backup_file,
    ⟨backup_file.dir, base_name backup_file ++ ".log"⟩,
    ⟨backup_file.dir, backup_file.name ++ ".notes"⟩ ]

/-- Outcome of `delete_backup_files`: a normal return of the accumulated
size, or an `OSError` escaping from `unlink()` (the source has no
handler, so the exception propagates).  Both carry the filesystem state
and the accumulator at that point. -/
inductive DelResult where
  | ok (total : Nat) (fs : FS)
  | raised (total : Nat) (fs : FS)
  deriving DecidableEq, Repr

/-- Filesystem state carried by a `DelResult`. -/
def DelResult.fsOf : DelResult → FS
  | .ok _ fs => fs
  | .raised _ fs => fs

/-- The loop of source lines 31–40: for each related file that exists,
add its size to the running total; in commit mode additionally unlink it,
which raises (aborting the loop) on an entry in `unlinkFails`.  Note the
size is added *before* the unlink is attempted. -/
def deleteLoop (dry_run : Bool) (fs : FS) (total : Nat) : List PyPath → DelResult
  | [] => .ok total fs
  | f :: rest =>
    if fs.existsAt f then
      let total := total + fs.sizeD f
      if dry_run then deleteLoop dry_run fs total rest
      else if fs.unlinkFails.contains f then .raised total fs
      else deleteLoop dry_run (fs.remove f) total rest
    else deleteLoop dry_run fs total rest

/-- `delete_backup_files(backup_file, dry_run)` (source lines 7–42). -/
def delete_backup_files (fs : FS) (backup_file : PyPath) (dry_run : Bool) : DelResult :=
  deleteLoop dry_run fs 0 (related_files backup_file)

/-- The command-line arguments after `argparse`: the positional
directory, `--keep`/`-k` (an `int`, default 3, no range check), and the
`--execute`/`-e` flag. -/
structure Args where
  backup_dir : String
  keep : Int
  execute : Bool
  deriving DecidableEq, Repr

/-- The world `main` runs against: results of `backup_path.exists()` and
`backup_path.is_dir()`, and the directory contents as an `FS`. -/
structure World where
  path_exists : Bool
  is_dir : Bool
  fs : FS
  deriving DecidableEq, Repr

/-- Python `name.endswith(suffix)`, on the character-list view. -/
def strEndsWith (s suffix : String) : Bool :=
  suffix.data.isSuffixOf s.data

/-- `backup_path.glob("*.vma.zst")` (source line 113): the entries of the
backup directory whose name ends in `.vma.zst`, in scan order. -/
def glob_vma (backup_dir : String) (fs : FS) : List PyPath :=
  (fs.entries.map (·.1)).filter
    (fun p => p.dir == backup_dir && strEndsWith p.name ".vma.zst")

/-- The parse loop of source lines 119–125: parse each globbed name,
silently skipping non-matches.  `none` models a `ValueError` raised by
`datetime(...)` inside `parse_backup_filename`, which no handler catches:
`main` dies before any deletion. -/
def parsePhase : List PyPath → Option (List Backup)
  | [] => some []
  | f :: rest =>
    match parse_backup_filename f.name with
    | .raisesValueError => none
    | .noMatch => parsePhase rest
    | .ok info => (parsePhase rest).map (⟨f, info⟩ :: ·)

/-- One `backups_by_vm[info['vm_id']].append(...)` step on a `defaultdict`
rendered as an association list in key-insertion order. -/
def addToGroups (groups : List (Nat × List Backup)) (b : Backup) :
    List (Nat × List Backup) :=
  match groups with
  | [] => [(b.info.vm_id, [b])]
  | (id, bs) :: rest =>
    if id == b.info.vm_id then (id, bs ++ [b]) :: rest
    else (id, bs) :: addToGroups rest b

/-- The grouping loop of source lines 116–125. -/
def backups_by_vm (parsed : List Backup) : List (Nat × List Backup) :=
  parsed.foldl addToGroups []

/-- The planning loop of source lines 132–138: iterate the groups in dict
(insertion) order and collect each group's `select_old` slice. -/
def old_backups (groups : List (Nat × List Backup)) (keep : Int) : List Backup :=
  groups.foldl (fun acc g => acc ++ select_old g.2 keep) []

/-- The deletion loop of source lines 145–152: run
`delete_backup_files(file, dry_run=not execute)` on each selected backup,
accumulating `total_freed`; an exception escaping one call aborts the
whole loop (no handler in the source). -/
def runDeletions (execute : Bool) (fs : FS) (total : Nat) : List Backup → DelResult
  | [] => .ok total fs
  | b :: rest =>
    match delete_backup_files fs b.file (!execute) with
    | .ok freed fs' => runDeletions execute fs' (total + freed) rest
    | .raised freed fs' => .raised (total + freed) fs'

/-- How a call to `main()` can end: an early `return 1` (missing or
non-directory path), falling off the end (Python returns `None`), or an
uncaught exception escaping `main`. -/
inductive MainOutcome where
  | ret (code : Nat) (w : World)
  | done (total_freed : Nat) (w : World)
  | uncaught (w : World)
  deriving DecidableEq, Repr

/-- The world state carried by a `MainOutcome`. -/
def MainOutcome.worldOf : MainOutcome → World
  | .ret _ w => w
  | .done _ w => w
  | .uncaught w => w

/-- `main()` (source lines 76–163), with `argparse` already done. -/
def main_run (w : World) (args : Args) : MainOutcome :=
  if !w.path_exists then .ret 1 w
  else if !w.is_dir then .ret 1 w
  else
    let backup_files := glob_vma args.backup_dir w.fs
    match parsePhase backup_files with
    | none => .uncaught w
    | some parsed =>
      let olds := old_backups (backups_by_vm parsed) args.keep
      match runDeletions args.execute w.fs 0 olds with
      | .ok total fs' => .done total ⟨w.path_exists, w.is_dir, fs'⟩
      | .raised _ fs' => .uncaught ⟨w.path_exists, w.is_dir, fs'⟩

/-- The exit status of the process.  The guard at source lines 166–167 is
`if __name__ == "__main__": main()` — the value `main` returns is
discarded, so CPython exits 0 whenever `main` returns (even when it
returns 1) and exits 1 only when an exception escapes. -/
def process_exit_code (w : World) (args : Args) : Nat :=
  match main_run w args with
  | .uncaught _ => 1
  | _ => 0

/-- The byte total the executor's accumulator reaches over a list of
candidate entries against a fixed filesystem: missing entries contribute
zero. -/
def sum_existing (fs : FS) (l : List PyPath) : Nat :=
  (l.map fs.sizeD).sum

/-- Modelled from the spec (§4.3), for comparison with `base_name` from
the source: "derives the base name by stripping the known primary-archive
suffix from the artifact's file name (if the suffix is absent, the base
name equals the full name — no error)". -/
def base_name_specStrip (name : String) : String :=
  if vmaSuffix.isSuffixOf name.data then
    String.mk (name.data.take (name.data.length - 8))
  else name

/- Concrete sample data used by witnesses and counterexamples. -/

/-- A backup archive of VM 100, timestamped 2025-01-01 01:00:00. -/
def arcPath : PyPath := ⟨"backups", "vzdump-qemu-100-2025_01_01-01_00_00.vma.zst"⟩

/-- The log companion `delete_backup_files` derives for `arcPath`. -/
def logPath : PyPath := ⟨"backups", "vzdump-qemu-100-2025_01_01-01_00_00.log"⟩

/-- The notes companion `delete_backup_files` derives for `arcPath`. -/
def notesPath : PyPath := ⟨"backups", "vzdump-qemu-100-2025_01_01-01_00_00.vma.zst.notes"⟩

/-- A newer backup archive of the same VM, timestamped 2025-01-02. -/
def newArc : PyPath := ⟨"backups", "vzdump-qemu-100-2025_01_02-01_00_00.vma.zst"⟩

/-- Archive, log and notes all exist, but unlinking the log fails. -/
def fsUnlinkFail : FS := ⟨[(arcPath, 10), (logPath, 5), (notesPath, 3)], [logPath]⟩

/-- Archive and log exist, no notes file, deletions succeed. -/
def fsArcLog : FS := ⟨[(arcPath, 10), (logPath, 5)], []⟩

/-- A directory holding two parseable archives of VM 100. -/
def wTwoBackups : World := ⟨true, true, ⟨[(newArc, 100), (arcPath, 100)], []⟩⟩

/-- A world whose backup path does not exist. -/
def wMissing : World := ⟨false, true, ⟨[(arcPath, 10)], []⟩⟩

/-- A world whose backup path exists but is not a directory. -/
def wNotDir : World := ⟨true, false, ⟨[(arcPath, 10)], []⟩⟩

/-- The parsed form of `newArc`. -/
def bNew : Backup := ⟨newArc, ⟨"qemu", 100, ⟨2025, 1, 2, 1, 0, 0⟩⟩⟩

/-- The parsed form of `arcPath`. -/
def bOld : Backup := ⟨arcPath, ⟨"qemu", 100, ⟨2025, 1, 1, 1, 0, 0⟩⟩⟩

/-- An archive name containing `.vma.zst` twice. -/
def dblSuffixPath : PyPath :=
  ⟨"backups", "vzdump-qemu-1-2025_01_01-01_00_00.vma.zst.vma.zst"⟩

/- Helper lemmas. -/

/-- The per-group slice with a non-negative keep count is `drop keep` of
the descending-sorted group, whether or not the group is large enough. -/
theorem select_old_natCast (g : List Backup) (k : Nat) :
    select_old g (k : Int) = (sortDescByTimestamp g).drop k := by
  have e : select_old g (k : Int)
      = if ((sortDescByTimestamp g).length : Int) > (k : Int) then
          pySliceFrom (sortDescByTimestamp g) (k : Int)
        else [] := rfl
  rw [e]
  split_ifs with h
  · unfold pySliceFrom
    rw [if_pos (by exact_mod_cast Nat.zero_le k)]
    norm_num
  · have hle : (sortDescByTimestamp g).length ≤ k := by exact_mod_cast not_lt.mp h
    exact (List.drop_eq_nil_of_le hle).symm

/-- The sorted group is pairwise `backupGe`-ordered. -/
theorem sortDesc_pairwise (g : List Backup) :
    List.Pairwise backupGeR (sortDescByTimestamp g) :=
  List.sorted_insertionSort backupGeR g

/-- C1: for every entity group of artifacts and every `keepCount = k ≥ 0`
the planner sorts the group descending by timestamp and selects exactly
`max(0, n - k)` artifacts for removal — the ones past position `k` of the
descending order, hence the oldest — while the retained artifacts are the
`min(n, k)` most recent: every retained timestamp is at least every
removed one; a group with `n ≤ k` contributes nothing, and `k = 0`
selects every artifact of the group. -/
theorem retention_selects_all_but_k_most_recent (g : List Backup) (k : Nat) :
    select_old g (k : Int) = (sortDescByTimestamp g).drop k
    ∧ (select_old g (k : Int)).length = g.length - k
    ∧ (g.length ≤ k → select_old g (k : Int) = [])
    ∧ (select_old g 0).Perm g
    ∧ (sortDescByTimestamp g).take k ++ select_old g (k : Int) = sortDescByTimestamp g
    ∧ ((sortDescByTimestamp g).take k).length = min k g.length
    ∧ (∀ a ∈ (sortDescByTimestamp g).take k, ∀ b ∈ select_old g (k : Int),
        PyDatetime.pyLe b.info.timestamp a.info.timestamp = true)
    ∧ (sortDescByTimestamp g).Perm g
    ∧ List.Pairwise backupGeR (sortDescByTimestamp g) := by
  have hlen : (sortDescByTimestamp g).length = g.length :=
    List.length_insertionSort backupGeR g
  have hperm : (sortDescByTimestamp g).Perm g := List.perm_insertionSort backupGeR g
  have hdrop := select_old_natCast g k
  refine ⟨hdrop, ?_, ?_, ?_, ?_, ?_, ?_, hperm, sortDesc_pairwise g⟩
  · rw [hdrop, List.length_drop, hlen]
  · intro hk
    rw [hdrop]
    exact List.drop_eq_nil_of_le (by rw [hlen]; exact hk)
  · have h0 : select_old g (0 : Int) = sortDescByTimestamp g := by
      have := select_old_natCast g 0
      simpa using this
    rw [h0]
    exact hperm
  · rw [hdrop]
    exact List.take_append_drop k _
  · rw [List.length_take, hlen]
  · rw [hdrop]
    have hs := sortDesc_pairwise g
    have hsplit : (sortDescByTimestamp g).take k ++ (sortDescByTimestamp g).drop k
        = sortDescByTimestamp g := List.take_append_drop k _
    have hp := (List.pairwise_append.mp (by rw [hsplit]; exact hs)).2.2
    intro a ha b hb
    exact hp a ha b hb

/-- Witness for C1 at a concrete group of size 2 with `k = 3`: the group
is not larger than the keep count and contributes nothing. -/
theorem retention_selects_witness :
    select_old [bNew, bOld] ((3 : Nat) : Int) = [] :=
  (retention_selects_all_but_k_most_recent [bNew, bOld] 3).2.2.1 (by decide)

/-- C10: the per-group descending sort is stable — for every timestamp
value, the artifacts carrying it appear in the sorted group in exactly
the relative order they had in the scan-order input, so the removal
selection is a deterministic function of the input sequence and the keep
count. -/
theorem sort_stable_equal_timestamps (g : List Backup) (t : PyDatetime) :
    (sortDescByTimestamp g).filter (fun b => b.info.timestamp == t)
      = g.filter (fun b => b.info.timestamp == t) := by
  have hmem : ∀ a ∈ g.filter (fun b => b.info.timestamp == t),
      ∀ b ∈ g.filter (fun b => b.info.timestamp == t), backupGeR a b := by
    intro a ha b hb
    have ea : a.info.timestamp = t := by
      simpa using (List.mem_filter.mp ha).2
    have eb : b.info.timestamp = t := by
      simpa using (List.mem_filter.mp hb).2
    show backupGe a b = true
    simp [backupGe, PyDatetime.pyLe, ea, eb]
  have hpair := List.pairwise_of_forall_mem_list hmem
  have hsub : (g.filter (fun b => b.info.timestamp == t)).Sublist
      (sortDescByTimestamp g) :=
    List.sublist_insertionSort hpair (List.filter_sublist g)
  have hself : (g.filter (fun b => b.info.timestamp == t)).filter
      (fun b => b.info.timestamp == t) = g.filter (fun b => b.info.timestamp == t) :=
    List.filter_eq_self.mpr (fun a ha => (List.mem_filter.mp ha).2)
  have hsub2 : (g.filter (fun b => b.info.timestamp == t)).Sublist
      ((sortDescByTimestamp g).filter (fun b => b.info.timestamp == t)) := by
    have h2 := hsub.filter (fun b => b.info.timestamp == t)
    rwa [hself] at h2
  have hlen : ((sortDescByTimestamp g).filter (fun b => b.info.timestamp == t)).length
      = (g.filter (fun b => b.info.timestamp == t)).length :=
    ((List.perm_insertionSort backupGeR g).filter _).length_eq
  exact (hsub2.eq_of_length hlen.symm).symm

/-- C2 counterexample: a name that matches the filename pattern but
embeds month 13 makes `datetime(...)` raise `ValueError`, which no
handler in the source catches — the parser is not exception-free. -/
theorem parse_month13_raises_valueerror :
    parse_backup_filename "vzdump-qemu-100-2025_13_01-01_00_00.vma.zst"
      = .raisesValueError := by decide

/-- C2 amended: parsing is total up to the `ValueError`: every input
string either yields a no-match (exactly when the pattern does not match
a prefix of the name), yields metadata whose calendar timestamp is valid,
or — when the pattern matches but a calendar component is out of range —
raises `ValueError`, which propagates uncaught to the caller. -/
theorem parse_total_up_to_valueerror (s : String) :
    (parse_backup_filename s = .noMatch ↔ reMatchPattern s.data = none)
    ∧ (∀ info, parse_backup_filename s = .ok info → info.timestamp.valid = true)
    ∧ (parse_backup_filename s = .raisesValueError ↔
        ∃ g, reMatchPattern s.data = some g
          ∧ (groupsToInfo g).timestamp.valid = false) := by
  cases h : reMatchPattern s.data with
  | none =>
    have hp : parse_backup_filename s = .noMatch := by
      unfold parse_backup_filename
      rw [h]
    refine ⟨by simp [hp], ?_, ?_⟩
    · intro info hinfo
      rw [hp] at hinfo
      exact absurd hinfo (by simp)
    · rw [hp]
      simp
  | some g =>
    have hpm : parse_backup_filename s
        = if (groupsToInfo g).timestamp.valid then .ok (groupsToInfo g)
          else .raisesValueError := by
      unfold parse_backup_filename
      rw [h]
    by_cases hv : (groupsToInfo g).timestamp.valid = true
    · rw [if_pos hv] at hpm
      refine ⟨by rw [hpm]; simp, ?_, ?_⟩
      · intro info hinfo
        rw [hpm] at hinfo
        have he : groupsToInfo g = info := by
          injection hinfo
        rw [← he]
        exact hv
      · rw [hpm]
        constructor
        · intro hc
          exact absurd hc (by simp)
        · rintro ⟨g', hg', hvalid⟩
          have he : g = g' := Option.some.inj hg'
          rw [← he] at hvalid
          exact absurd hvalid (by simp [hv])
    · rw [if_neg hv] at hpm
      have hv' : (groupsToInfo g).timestamp.valid = false := by
        simpa using hv
      refine ⟨by rw [hpm]; simp, ?_, ?_⟩
      · intro info hinfo
        rw [hpm] at hinfo
        exact absurd hinfo (by simp)
      · rw [hpm]
        constructor
        · intro _
          exact ⟨g, rfl, hv'⟩
        · intro _
          rfl

/-- Witness for C2's amended theorem at a concrete parse: the metadata
returned for scenario D's file name carries a valid calendar date. -/
theorem parse_total_witness :
    (⟨"qemu", 100, ⟨2025, 1, 1, 1, 0, 0⟩⟩ : BackupInfo).timestamp.valid = true :=
  (parse_total_up_to_valueerror "vzdump-qemu-100-2025_01_01-01_00_00.vma.zst").2.1
    ⟨"qemu", 100, ⟨2025, 1, 1, 1, 0, 0⟩⟩ (by decide)

/-- C9: the parser anchors the pattern at the start of the name only and
leaves trailing content unconstrained — scenario D's name parses to
`qemu`/100/2025-01-01T01:00:00, any string extending the matching prefix
parses to the same metadata, and a name where the pattern occurs only
away from position 0 does not parse. -/
theorem parser_anchored_at_start :
    parse_backup_filename "vzdump-qemu-100-2025_01_01-01_00_00.vma.zst"
      = .ok ⟨"qemu", 100, ⟨2025, 1, 1, 1, 0, 0⟩⟩
    ∧ (∀ t : String,
        parse_backup_filename ("vzdump-qemu-100-2025_01_01-01_00_00" ++ t)
          = .ok ⟨"qemu", 100, ⟨2025, 1, 1, 1, 0, 0⟩⟩)
    ∧ parse_backup_filename "x-vzdump-qemu-100-2025_01_01-01_00_00.vma.zst"
      = .noMatch :=
  ⟨by decide, fun t => rfl, by decide⟩

/-- If `'.vma.zst'` is a prefix of `s`, it occurs in `s`. -/
theorem occursVma_of_prefix (s : List Char) (h : vmaSuffix.isPrefixOf s = true) :
    occursVma s = true := by
  obtain ⟨tail, htail⟩ := List.isPrefixOf_iff_prefix.mp h
  rw [← htail]
  rfl

/-- A string in which `'.vma.zst'` does not occur is left unchanged by
`replace`. -/
theorem removeVmaZst_of_not_occurs :
    ∀ s : List Char, occursVma s = false → removeVmaZst s = s := by
  intro s
  induction s using removeVmaZst.induct with
  | case1 rest ih =>
    intro h
    exfalso
    have ht : occursVma ('.' :: 'v' :: 'm' :: 'a' :: '.' :: 'z' :: 's' :: 't' :: rest)
        = true := rfl
    rw [ht] at h
    cases h
  | case2 c cs hcond ih =>
    intro h
    rw [occursVma.eq_2 c cs hcond] at h
    rw [removeVmaZst.eq_2 c cs hcond, ih h]
  | case3 =>
    intro _
    rfl

/-- `replace` removes a whole number of 8-character occurrences. -/
theorem removeVmaZst_length :
    ∀ s : List Char, ∃ k, (removeVmaZst s).length + 8 * k = s.length := by
  intro s
  induction s using removeVmaZst.induct with
  | case1 rest ih =>
    obtain ⟨k, hk⟩ := ih
    refine ⟨k + 1, ?_⟩
    rw [removeVmaZst.eq_1]
    simp only [List.length_cons]
    omega
  | case2 c cs hcond ih =>
    obtain ⟨k, hk⟩ := ih
    refine ⟨k, ?_⟩
    rw [removeVmaZst.eq_2 c cs hcond]
    simp only [List.length_cons]
    omega
  | case3 => exact ⟨0, rfl⟩

/-- On a stem free of `'.vma.zst'` followed by one `'.vma.zst'` suffix,
`replace` strips exactly that suffix.  (The pattern cannot straddle the
boundary because `'.vma.zst'` is aperiodic.) -/
theorem removeVmaZst_append_suffix :
    ∀ stem : List Char, occursVma stem = false →
      removeVmaZst (stem ++ vmaSuffix) = stem := by
  intro stem
  induction stem with
  | nil =>
    intro _
    rfl
  | cons c cs ih =>
    intro h
    by_cases hp : vmaSuffix.isPrefixOf (c :: cs ++ vmaSuffix) = true
    · exfalso
      obtain ⟨tail, htail⟩ := List.isPrefixOf_iff_prefix.mp hp
      by_cases hlen : 8 ≤ (c :: cs).length
      · have hpre1 : vmaSuffix <+: ((c :: cs) ++ vmaSuffix) := ⟨tail, htail⟩
        have hpre2 : (c :: cs) <+: ((c :: cs) ++ vmaSuffix) := ⟨vmaSuffix, rfl⟩
        have h8 : vmaSuffix.length = 8 := rfl
        have hpre3 : vmaSuffix <+: (c :: cs) :=
          List.prefix_of_prefix_length_le hpre1 hpre2 (by omega)
        have := occursVma_of_prefix (c :: cs) (List.isPrefixOf_iff_prefix.mpr hpre3)
        rw [this] at h
        cases h
      · push_neg at hlen
        have hpre1 : vmaSuffix <+: ((c :: cs) ++ vmaSuffix) := ⟨tail, htail⟩
        have hpre2 : (c :: cs) <+: ((c :: cs) ++ vmaSuffix) := ⟨vmaSuffix, rfl⟩
        have h8 : vmaSuffix.length = 8 := rfl
        have hpre3 : (c :: cs) <+: vmaSuffix :=
          List.prefix_of_prefix_length_le hpre2 hpre1 (by omega)
        obtain ⟨u, hu⟩ := hpre3
        have hu_tail : u ++ tail = vmaSuffix := by
          have h2 := htail
          rw [← hu, List.append_assoc] at h2
          have h3 := List.append_cancel_left h2
          rw [h3, hu]
        have hc1 : vmaSuffix.take (c :: cs).length = c :: cs := by
          rw [← hu]
          exact List.take_left (c :: cs) u
        have hc2 : vmaSuffix.take u.length = u := by
          rw [← hu_tail]
          exact List.take_left u tail
        have hlu : u.length = 8 - (c :: cs).length := by
          have := congrArg List.length hu
          simp only [List.length_append] at this
          omega
        have hcontra : vmaSuffix
            = vmaSuffix.take (c :: cs).length ++ vmaSuffix.take (8 - (c :: cs).length) := by
          rw [hc1, ← hlu, hc2]
          exact hu.symm
        have hn1 : 1 ≤ (c :: cs).length := by simp
        set n := (c :: cs).length with hn
        have hn2 : n ≤ 7 := by omega
        interval_cases n <;> exact absurd hcontra (by decide)
    · have hcond : ∀ rest, c = '.' →
          cs ++ vmaSuffix = 'v' :: 'm' :: 'a' :: '.' :: 'z' :: 's' :: 't' :: rest →
          False := by
        intro rest hc hcs
        apply hp
        show vmaSuffix.isPrefixOf (c :: (cs ++ vmaSuffix)) = true
        rw [hc, hcs]
        simp [vmaSuffix, List.isPrefixOf]
      have hcond2 : ∀ rest, c = '.' →
          cs = 'v' :: 'm' :: 'a' :: '.' :: 'z' :: 's' :: 't' :: rest → False := by
        intro rest hc hcs
        apply hp
        show vmaSuffix.isPrefixOf (c :: (cs ++ vmaSuffix)) = true
        rw [hc, hcs]
        simp [vmaSuffix, List.isPrefixOf]
      have hocc : occursVma cs = false := by
        rw [occursVma.eq_2 c cs hcond2] at h
        exact h
      rw [List.cons_append, removeVmaZst.eq_2 c (cs ++ vmaSuffix) hcond, ih hocc]

/-- Filtering out entries at path `p` does not change the lookup of a
different path `q`. -/
theorem find?_filter_ne (l : List (PyPath × Nat)) (p q : PyPath) (h : q ≠ p) :
    (l.filter (fun e => !(e.1 == p))).find? (fun e => e.1 == q)
      = l.find? (fun e => e.1 == q) := by
  induction l with
  | nil => rfl
  | cons e es ih =>
    by_cases hq : e.1 = q
    · have hnp : (e.1 == p) = false := by
        rw [hq]
        exact beq_eq_false_iff_ne.mpr h
      have hyq : (e.1 == q) = true := by
        rw [hq]
        exact beq_self_eq_true q
      simp [List.filter_cons, hnp, List.find?_cons, hyq]
    · have hnq : (e.1 == q) = false := beq_eq_false_iff_ne.mpr hq
      by_cases hp' : e.1 = p
      · have hyp : (e.1 == p) = true := by
          rw [hp']
          exact beq_self_eq_true p
        simp [List.filter_cons, hyp, List.find?_cons, hnq, ih]
      · have hnp : (e.1 == p) = false := beq_eq_false_iff_ne.mpr hp'
        simp [List.filter_cons, hnp, List.find?_cons, hnq, ih]

/-- `unlink` of `p` does not change the size of a different path. -/
theorem size?_remove_ne (fs : FS) (p q : PyPath) (h : q ≠ p) :
    (fs.remove p).size? q = fs.size? q := by
  unfold FS.remove FS.size?
  simp only []
  rw [find?_filter_ne fs.entries p q h]

/-- `unlink` of `p` does not change the existence of a different path. -/
theorem existsAt_remove_ne (fs : FS) (p q : PyPath) (h : q ≠ p) :
    (fs.remove p).existsAt q = fs.existsAt q := by
  unfold FS.existsAt
  rw [size?_remove_ne fs p q h]

/-- `unlink` of `p` does not change the default-size of a different path. -/
theorem sizeD_remove_ne (fs : FS) (p q : PyPath) (h : q ≠ p) :
    (fs.remove p).sizeD q = fs.sizeD q := by
  unfold FS.sizeD
  rw [size?_remove_ne fs p q h]

/-- A path that does not exist contributes zero bytes. -/
theorem existsAt_false_sizeD (fs : FS) (p : PyPath) (h : fs.existsAt p = false) :
    fs.sizeD p = 0 := by
  unfold FS.existsAt at h
  unfold FS.sizeD
  cases ho : fs.size? p with
  | none => rfl
  | some v =>
    rw [ho] at h
    cases h

/-- In dry-run mode the loop of `delete_backup_files` returns the sizes
of the existing entries and leaves the filesystem untouched. -/
theorem deleteLoop_dry (l : List PyPath) :
    ∀ (fs : FS) (total : Nat),
      deleteLoop true fs total l = .ok (total + sum_existing fs l) fs := by
  induction l with
  | nil =>
    intro fs total
    simp [deleteLoop, sum_existing]
  | cons f rest ih =>
    intro fs total
    cases hex : fs.existsAt f with
    | false =>
      have h0 := existsAt_false_sizeD fs f hex
      simp [deleteLoop, hex, ih fs total, sum_existing, h0]
    | true =>
      simp only [deleteLoop, hex, if_true]
      rw [ih fs (total + fs.sizeD f)]
      simp [sum_existing]
      omega

/-- In commit mode, when no `unlink` of an existing listed entry fails
and the entries are pairwise distinct, the loop of `delete_backup_files`
returns normally with the sizes of the existing entries (measured against
the filesystem as it was when the loop started). -/
theorem deleteLoop_commit_ok (l : List PyPath) :
    ∀ (fs : FS) (total : Nat),
      l.Pairwise (fun a b => a ≠ b) →
      (∀ p ∈ l, fs.existsAt p = true → fs.unlinkFails.contains p = false) →
      ∃ fs', deleteLoop false fs total l = .ok (total + sum_existing fs l) fs' := by
  induction l with
  | nil =>
    intro fs total _ _
    exact ⟨fs, by simp [deleteLoop, sum_existing]⟩
  | cons f rest ih =>
    intro fs total hpw hok
    obtain ⟨hne, hpw_rest⟩ := List.pairwise_cons.mp hpw
    cases hex : fs.existsAt f with
    | false =>
      obtain ⟨fs', hfs'⟩ :=
        ih fs total hpw_rest (fun p hp => hok p (List.mem_cons_of_mem f hp))
      refine ⟨fs', ?_⟩
      have hstep : deleteLoop false fs total (f :: rest)
          = deleteLoop false fs total rest := by
        simp [deleteLoop, hex]
      have hsum : total + sum_existing fs (f :: rest) = total + sum_existing fs rest := by
        simp [sum_existing, existsAt_false_sizeD fs f hex]
      rw [hstep, hfs', hsum]
    | true =>
      have hnofail : fs.unlinkFails.contains f = false :=
        hok f (List.mem_cons_self f rest) hex
      have hnomem : f ∉ fs.unlinkFails := by
        simpa using hnofail
      have hstep : deleteLoop false fs total (f :: rest)
          = deleteLoop false (fs.remove f) (total + fs.sizeD f) rest := by
        simp [deleteLoop, hex, hnomem]
      have hok' : ∀ p ∈ rest, (fs.remove f).existsAt p = true →
          (fs.remove f).unlinkFails.contains p = false := by
        intro p hp hex'
        have hpne : p ≠ f := Ne.symm (hne p hp)
        rw [existsAt_remove_ne fs f p hpne] at hex'
        show (fs.remove f).unlinkFails.contains p = false
        have hUF : (fs.remove f).unlinkFails = fs.unlinkFails := rfl
        rw [hUF]
        exact hok p (List.mem_cons_of_mem f hp) hex'
      obtain ⟨fs', hfs'⟩ := ih (fs.remove f) (total + fs.sizeD f) hpw_rest hok'
      refine ⟨fs', ?_⟩
      rw [hstep, hfs']
      have hsumrm : sum_existing (fs.remove f) rest = sum_existing fs rest := by
        unfold sum_existing
        congr 1
        apply List.map_congr_left
        intro p hp
        exact sizeD_remove_ne fs f p (Ne.symm (hne p hp))
      have harith : total + fs.sizeD f + sum_existing (fs.remove f) rest
          = total + sum_existing fs (f :: rest) := by
        rw [hsumrm]
        unfold sum_existing
        simp only [List.map_cons, List.sum_cons]
        omega
      rw [harith]

/-- The loop of `delete_backup_files` only ever removes entries: in every
outcome the surviving entry list is a sublist of the original, and the
set of failing paths is untouched. -/
theorem deleteLoop_fsOf (dry : Bool) (l : List PyPath) :
    ∀ (fs : FS) (total : Nat),
      (deleteLoop dry fs total l).fsOf.entries.Sublist fs.entries
      ∧ (deleteLoop dry fs total l).fsOf.unlinkFails = fs.unlinkFails := by
  induction l with
  | nil =>
    intro fs total
    exact ⟨List.Sublist.refl _, rfl⟩
  | cons f rest ih =>
    intro fs total
    cases hex : fs.existsAt f with
    | false =>
      have hstep : deleteLoop dry fs total (f :: rest)
          = deleteLoop dry fs total rest := by
        simp [deleteLoop, hex]
      rw [hstep]
      exact ih fs total
    | true =>
      cases dry with
      | true =>
        have hstep : deleteLoop true fs total (f :: rest)
            = deleteLoop true fs (total + fs.sizeD f) rest := by
          simp [deleteLoop, hex]
        rw [hstep]
        exact ih fs (total + fs.sizeD f)
      | false =>
        cases hfail : fs.unlinkFails.contains f with
        | true =>
          have hmem : f ∈ fs.unlinkFails := by
            simpa using hfail
          have hstep : deleteLoop false fs total (f :: rest)
              = .raised (total + fs.sizeD f) fs := by
            simp [deleteLoop, hex, hmem]
          rw [hstep]
          exact ⟨List.Sublist.refl _, rfl⟩
        | false =>
          have hnomem : f ∉ fs.unlinkFails := by
            simpa using hfail
          have hstep : deleteLoop false fs total (f :: rest)
              = deleteLoop false (fs.remove f) (total + fs.sizeD f) rest := by
            simp [deleteLoop, hex, hnomem]
          rw [hstep]
          obtain ⟨h1, h2⟩ := ih (fs.remove f) (total + fs.sizeD f)
          refine ⟨h1.trans ?_, h2.trans rfl⟩
          exact List.filter_sublist fs.entries

/-- The three candidate entries of `delete_backup_files` are pairwise
distinct: the log name is 4 characters longer than the base name while
the archive name exceeds the base name by a multiple of 8, and the notes
name is 6 characters longer than the archive name. -/
theorem related_files_pairwise_ne (f : PyPath) :
    (related_files f).Pairwise (fun a b => a ≠ b) := by
  obtain ⟨k, hk⟩ := removeVmaZst_length f.name.data
  have hbase : (base_name f).data = removeVmaZst f.name.data := rfl
  have hlog4 : (".log" : String).data.length = 4 := rfl
  have hnotes6 : (".notes" : String).data.length = 6 := rfl
  have hne12 : f ≠ (⟨f.dir, base_name f ++ ".log"⟩ : PyPath) := by
    intro he
    have hn := congrArg (fun p => p.name.data.length) he
    simp only [String.data_append, List.length_append, hbase, hlog4] at hn
    omega
  have hne13 : f ≠ (⟨f.dir, f.name ++ ".notes"⟩ : PyPath) := by
    intro he
    have hn := congrArg (fun p => p.name.data.length) he
    simp only [String.data_append, List.length_append, hnotes6] at hn
    omega
  have hne23 : (⟨f.dir, base_name f ++ ".log"⟩ : PyPath)
      ≠ (⟨f.dir, f.name ++ ".notes"⟩ : PyPath) := by
    intro he
    have hn := congrArg (fun p => p.name.data.length) he
    simp only [String.data_append, List.length_append, hbase, hlog4, hnotes6] at hn
    omega
  unfold related_files
  refine List.Pairwise.cons ?_ (List.Pairwise.cons ?_ (List.Pairwise.cons ?_ List.Pairwise.nil))
  · intro b hb
    rcases List.mem_cons.mp hb with h1 | h1
    · rw [h1]
      exact hne12
    · rw [List.mem_singleton.mp h1]
      exact hne13
  · intro b hb
    rw [List.mem_singleton.mp hb]
    exact hne23
  · intro b hb
    cases hb

/-- A simulate-mode deletion pass leaves the filesystem exactly as it
was: every `delete_backup_files` call runs with `dry_run=True`. -/
theorem runDeletions_dry_fs (olds : List Backup) :
    ∀ (fs : FS) (total : Nat),
      ∃ tot, runDeletions false fs total olds = .ok tot fs := by
  induction olds with
  | nil =>
    intro fs total
    exact ⟨total, rfl⟩
  | cons b rest ih =>
    intro fs total
    have hdel : delete_backup_files fs b.file true
        = .ok (0 + sum_existing fs (related_files b.file)) fs :=
      deleteLoop_dry (related_files b.file) fs 0
    obtain ⟨tot, htot⟩ := ih fs (total + (0 + sum_existing fs (related_files b.file)))
    refine ⟨tot, ?_⟩
    show (match delete_backup_files fs b.file (!false) with
      | .ok freed fs' => runDeletions false fs' (total + freed) rest
      | .raised freed fs' => .raised (total + freed) fs') = .ok tot fs
    rw [show (!false) = true from rfl, hdel]
    exact htot

/-- A deletion pass in either mode only ever removes entries. -/
theorem runDeletions_fsOf (execute : Bool) (olds : List Backup) :
    ∀ (fs : FS) (total : Nat),
      (runDeletions execute fs total olds).fsOf.entries.Sublist fs.entries := by
  induction olds with
  | nil =>
    intro fs total
    exact List.Sublist.refl _
  | cons b rest ih =>
    intro fs total
    have hdel := deleteLoop_fsOf (!execute) (related_files b.file) fs 0
    show (match delete_backup_files fs b.file (!execute) with
      | .ok freed fs' => runDeletions execute fs' (total + freed) rest
      | .raised freed fs' => .raised (total + freed) fs').fsOf.entries.Sublist
        fs.entries
    cases hd : delete_backup_files fs b.file (!execute) with
    | ok freed fs' =>
      have hsub : fs'.entries.Sublist fs.entries := by
        have := hdel.1
        rw [show deleteLoop (!execute) fs 0 (related_files b.file)
            = delete_backup_files fs b.file (!execute) from rfl, hd] at this
        exact this
      exact (ih fs' (total + freed)).trans hsub
    | raised freed fs' =>
      have hsub : fs'.entries.Sublist fs.entries := by
        have := hdel.1
        rw [show deleteLoop (!execute) fs 0 (related_files b.file)
            = delete_backup_files fs b.file (!execute) from rfl, hd] at this
        exact this
      exact hsub

/-- C3 counterexample: with the archive (10 bytes), log (5 bytes) and
notes (3 bytes) all present but `unlink` failing on the log, a commit run
of `delete_backup_files` aborts with the exception after deleting only
the archive: the notes entry is never reached, and the running total (15)
already counts the log that was not deleted. -/
theorem delete_failure_abort_concrete :
    delete_backup_files fsUnlinkFail arcPath false
      = .raised 15 ⟨[(logPath, 5), (notesPath, 3)], [logPath]⟩ := by decide

/-- C3 amended: a delete operation that fails on one companion entry
aborts the whole batch instead of being skipped: `delete_backup_files`
propagates the exception at the failing entry — the remaining entries of
that artifact are not processed, the filesystem keeps the failing entry,
and the running byte total already includes its size — and the deletion
loop of `main` propagates the exception further, abandoning all remaining
artifacts. -/
theorem delete_failure_aborts_batch :
    (∀ (fs : FS) (f : PyPath) (rest : List PyPath) (total : Nat),
        fs.existsAt f = true → fs.unlinkFails.contains f = true →
        deleteLoop false fs total (f :: rest) = .raised (total + fs.sizeD f) fs)
    ∧ (∀ (fs : FS) (b : Backup) (bs : List Backup) (total freed : Nat) (fs' : FS),
        delete_backup_files fs b.file false = .raised freed fs' →
        runDeletions true fs total (b :: bs) = .raised (total + freed) fs') := by
  constructor
  · intro fs f rest total hex hfail
    have hmem : f ∈ fs.unlinkFails := by
      simpa using hfail
    simp [deleteLoop, hex, hmem]
  · intro fs b bs total freed fs' h
    show (match delete_backup_files fs b.file (!true) with
      | .ok freed fs' => runDeletions true fs' (total + freed) bs
      | .raised freed fs' => .raised (total + freed) fs') = .raised (total + freed) fs'
    rw [show (!true) = false from rfl, h]

/-- Witness for C3's amended theorem at a concrete failing unlink. -/
theorem delete_failure_aborts_witness :
    deleteLoop false fsUnlinkFail 0 [logPath]
      = .raised (0 + fsUnlinkFail.sizeD logPath) fsUnlinkFail :=
  delete_failure_aborts_batch.1 fsUnlinkFail logPath [] 0 (by decide) (by decide)

/-- C4: a negative retention count is *not* rejected: with `--keep -1` on
a directory holding two backups of VM 100, the run proceeds past
planning, Python slice semantics select the oldest backup
(`backups[-1:]`), commit mode deletes it (freeing its 100 bytes), and the
process still exits 0. -/
theorem keep_negative_proceeds_and_deletes :
    main_run wTwoBackups ⟨"backups", (-1 : Int), true⟩
      = .done 100 ⟨true, true, ⟨[(newArc, 100)], []⟩⟩
    ∧ process_exit_code wTwoBackups ⟨"backups", (-1 : Int), true⟩ = 0 := by
  constructor
  · decide
  · decide

/-- C5: when the backup path is missing (or is not a directory), `main`
returns 1 without touching the filesystem — but the
`if __name__ == "__main__": main()` guard discards that value, so the
process exit status is 0, not non-zero as the spec requires. -/
theorem missing_dir_exits_zero :
    main_run wMissing ⟨"backups", (3 : Int), true⟩ = .ret 1 wMissing
    ∧ process_exit_code wMissing ⟨"backups", (3 : Int), true⟩ = 0
    ∧ main_run wNotDir ⟨"backups", (3 : Int), true⟩ = .ret 1 wNotDir
    ∧ process_exit_code wNotDir ⟨"backups", (3 : Int), true⟩ = 0 := by
  refine ⟨by decide, by decide, by decide, by decide⟩

/-- C6 counterexample: on a name containing `.vma.zst` twice, the source
derives the log companion from the name with *every* occurrence removed
(`str.replace` replaces all occurrences), not from the name with the
trailing suffix stripped as the claim states — so the resolved companion
list differs from the claimed one. -/
theorem resolveCompanions_not_suffix_strip :
    related_files dblSuffixPath
      ≠ [dblSuffixPath,
         ⟨dblSuffixPath.dir, base_name_specStrip dblSuffixPath.name ++ ".log"⟩,
         ⟨dblSuffixPath.dir, dblSuffixPath.name ++ ".notes"⟩] := by decide

/-- C6 amended: companion resolution is pure and yields exactly three
candidates in the artifact's own directory — the archive, `base + .log`
and `fullname + .notes` — where the base name is the file name with every
occurrence of `.vma.zst` removed; this equals the full name when the
suffix is absent, and equals plain suffix-stripping when `.vma.zst`
occurs exactly once, at the end. -/
theorem resolveCompanions_replace_all (f : PyPath) :
    related_files f
      = [f, ⟨f.dir, base_name f ++ ".log"⟩, ⟨f.dir, f.name ++ ".notes"⟩]
    ∧ (occursVma f.name.data = false → base_name f = f.name)
    ∧ (∀ stem : List Char, f.name.data = stem ++ vmaSuffix →
        occursVma stem = false → (base_name f).data = stem) := by
  refine ⟨rfl, ?_, ?_⟩
  · intro h
    unfold base_name
    rw [removeVmaZst_of_not_occurs f.name.data h]
  · intro stem hstem hocc
    show removeVmaZst f.name.data = stem
    rw [hstem]
    exact removeVmaZst_append_suffix stem hocc

/-- Witness for C6's amended theorem: a name without the suffix is kept
whole, and the doubled-suffix name loses both occurrences. -/
theorem resolveCompanions_witness :
    base_name ⟨"backups", "data.tar"⟩ = "data.tar" :=
  (resolveCompanions_replace_all ⟨"backups", "data.tar"⟩).2.1 (by decide)

/-- C7: in both simulate and commit mode (the latter absent unlink
failures), `delete_backup_files` returns the sum of the byte sizes of
exactly those of its three candidate entries that exist on the
filesystem; candidates that do not exist contribute zero and are skipped
without error. -/
theorem execute_total_is_sum_of_existing (fs : FS) (f : PyPath) (dry : Bool)
    (hok : dry = false → ∀ p ∈ related_files f,
        fs.existsAt p = true → fs.unlinkFails.contains p = false) :
    (∃ fs', delete_backup_files fs f dry
        = .ok (sum_existing fs (related_files f)) fs')
    ∧ sum_existing fs (related_files f)
        = (((related_files f).filter (fun p => fs.existsAt p)).map fs.sizeD).sum := by
  constructor
  · cases dry with
    | true =>
      refine ⟨fs, ?_⟩
      have h := deleteLoop_dry (related_files f) fs 0
      rw [show delete_backup_files fs f true
          = deleteLoop true fs 0 (related_files f) from rfl, h]
      rw [Nat.zero_add]
    | false =>
      obtain ⟨fs', h⟩ := deleteLoop_commit_ok (related_files f) fs 0
        (related_files_pairwise_ne f) (hok rfl)
      refine ⟨fs', ?_⟩
      rw [show delete_backup_files fs f false
          = deleteLoop false fs 0 (related_files f) from rfl, h]
      rw [Nat.zero_add]
  · have hgen : ∀ l : List PyPath, sum_existing fs l
        = ((l.filter (fun p => fs.existsAt p)).map fs.sizeD).sum := by
      intro l
      induction l with
      | nil => rfl
      | cons p rest ih =>
        cases hex : fs.existsAt p with
        | true =>
          simp only [sum_existing, List.map_cons, List.sum_cons,
            List.filter_cons, hex, if_true]
          unfold sum_existing at ih
          rw [ih]
        | false =>
          simp only [sum_existing, List.map_cons, List.sum_cons,
            List.filter_cons, hex, existsAt_false_sizeD fs p hex, Bool.false_eq_true,
            if_false, Nat.zero_add]
          unfold sum_existing at ih
          rw [ih]
    exact hgen (related_files f)

/-- Witness for C7 (scenario C): archive of 10 bytes with a log of 5
bytes and no notes file — commit mode reports 15 bytes, with no error for
the missing notes entry. -/
theorem execute_total_witness :
    ∃ fs', delete_backup_files fsArcLog arcPath false = .ok 15 fs' := by
  obtain ⟨⟨fs', h⟩, -⟩ :=
    execute_total_is_sum_of_existing fsArcLog arcPath false (by decide)
  refine ⟨fs', ?_⟩
  have e : sum_existing fsArcLog (related_files arcPath) = 15 := by decide
  rw [e] at h
  exact h

/-- C8: filesystem mutation happens only in commit mode and only as
deletions of entries that were found to exist: the dry-run loop returns
the filesystem unchanged, every outcome of `delete_backup_files` leaves a
sublist of the original entries (nothing is created or renamed), a
simulate-mode `main` run ends with the world exactly as it started, and
any `main` run ends with a sublist of the original entries. -/
theorem mutation_frame :
    (∀ (fs : FS) (total : Nat) (l : List PyPath),
        deleteLoop true fs total l = .ok (total + sum_existing fs l) fs)
    ∧ (∀ (fs : FS) (f : PyPath) (dry : Bool),
        (delete_backup_files fs f dry).fsOf.entries.Sublist fs.entries)
    ∧ (∀ (w : World) (args : Args), args.execute = false →
        (main_run w args).worldOf = w)
    ∧ (∀ (w : World) (args : Args),
        (main_run w args).worldOf.fs.entries.Sublist w.fs.entries) := by
  refine ⟨?_, ?_, ?_, ?_⟩
  · intro fs total l
    exact deleteLoop_dry l fs total
  · intro fs f dry
    exact (deleteLoop_fsOf dry (related_files f) fs 0).1
  · intro w args hexec
    obtain ⟨pe, isd, fs⟩ := w
    cases pe with
    | false => rfl
    | true =>
      cases isd with
      | false => rfl
      | true =>
        show (match parsePhase (glob_vma args.backup_dir fs) with
          | none => MainOutcome.uncaught ⟨true, true, fs⟩
          | some parsed =>
            match runDeletions args.execute fs 0
                (old_backups (backups_by_vm parsed) args.keep) with
            | .ok total fs' => .done total ⟨true, true, fs'⟩
            | .raised _ fs' => .uncaught ⟨true, true, fs'⟩).worldOf
          = (⟨true, true, fs⟩ : World)
        cases hp : parsePhase (glob_vma args.backup_dir fs) with
        | none => rfl
        | some parsed =>
          dsimp only
          rw [hexec]
          obtain ⟨tot, htot⟩ :=
            runDeletions_dry_fs (old_backups (backups_by_vm parsed) args.keep) fs 0
          rw [htot]
          rfl
  · intro w args
    obtain ⟨pe, isd, fs⟩ := w
    cases pe with
    | false => exact List.Sublist.refl _
    | true =>
      cases isd with
      | false => exact List.Sublist.refl _
      | true =>
        show (match parsePhase (glob_vma args.backup_dir fs) with
          | none => MainOutcome.uncaught ⟨true, true, fs⟩
          | some parsed =>
            match runDeletions args.execute fs 0
                (old_backups (backups_by_vm parsed) args.keep) with
            | .ok total fs' => .done total ⟨true, true, fs'⟩
            | .raised _ fs' => .uncaught ⟨true, true, fs'⟩).worldOf.fs.entries.Sublist
          fs.entries
        cases hp : parsePhase (glob_vma args.backup_dir fs) with
        | none => exact List.Sublist.refl _
        | some parsed =>
          dsimp only
          have hrun := runDeletions_fsOf args.execute
            (old_backups (backups_by_vm parsed) args.keep) fs 0
          cases hr : runDeletions args.execute fs 0
              (old_backups (backups_by_vm parsed) args.keep) with
          | ok total fs' =>
            rw [hr] at hrun
            exact hrun
          | raised total fs' =>
            rw [hr] at hrun
            exact hrun

/-- Witness for C8's simulate-mode conjunct at a concrete world. -/
theorem mutation_frame_witness :
    (main_run wTwoBackups ⟨"backups", (3 : Int), false⟩).worldOf = wTwoBackups :=
  mutation_frame.2.2.1 wTwoBackups ⟨"backups", (3 : Int), false⟩ rfl
